import Mathlib

/-!
Verification of the `copy_envelope` engine (`src/engine.py`).

Shallow embedding: sample buffers are channel-major `List (List ℝ)` values,
envelopes are `List ℝ`, real arithmetic stands in for Python floats
(the literals `1e-12`, `1e-6`, `1.5` are exact rationals), configuration
scalars that must be decidable (`attack_ms`, `release_ms`) are `ℚ`.
Python exceptions are modelled with `Except` / `Option`: `none` marks an
unhandled low-level error (IndexError on `env[0]`, ZeroDivisionError in the
tiling count, ValueError from `np.max` of an empty array), while typed
failures raised by the engine itself are `Err` constructors.  External
collaborators (librosa decoding, scipy's `hilbert`, `librosa.feature.rms`,
the pyloudnorm meter) are oracles passed as function parameters, exactly as
the spec treats them (section 1: decoding/encoding are library
responsibilities; section 4.2 detectors wrap library calls).
-/

namespace CopyEnvelope

/-- Failures surfaced by `apply_envelopes`: a decode failure from
`load_audio` (librosa), the `ValueError` of `combine_envelopes` on bad
weights, the `RuntimeError("No se encontraron moldes válidos.")`, and an
unhandled low-level error (IndexError / ZeroDivisionError / numpy
ValueError) from the conditioning stage. -/
inductive Err where
  | decode (path : String)
  | invalidWeights
  | noValidMolds
  | lowLevel
  deriving DecidableEq

/-- Failures of `combine_envelopes` alone: the weights `ValueError`
(engine.py line 86) and the `np.stack` failure on an empty or ragged
envelope list (line 68). -/
inductive CombineErr where
  | invalidWeights
  | stackError
  deriving DecidableEq

/-- `db_to_lin` (engine.py lines 17-18): `10.0 ** (db / 20.0)`. -/
noncomputable def db_to_lin (db : ℝ) : ℝ := (10 : ℝ) ^ (db / 20)

/-- `to_mono` (engine.py lines 29-32) as used by the pipeline, where buffers
are always channel-major 2-D: `np.mean(y, axis=0)`, the arithmetic mean
across channels at each sample index. -/
noncomputable def to_mono (y : List (List ℝ)) : List ℝ :=
  match y with
  | [] => []
  | c0 :: _ => (List.range c0.length).map
      (fun j => (y.map (fun ch => ch.getD j 0)).sum / y.length)

/-- Peak normalisation (engine.py lines 135-137):
`peak = float(np.max(env) + 1e-12); env = env / peak`.
`np.max` of an empty array raises `ValueError`, hence `none` on `[]`. -/
noncomputable def normalizeEnv (env : List ℝ) : Option (List ℝ) :=
  match env.max? with
  | none => none
  | some mx => some (env.map (fun v => v / (mx + 1e-12)))

/-- Truncation toward zero, the semantics of Python's `int()` on a float. -/
def ratTrunc (q : ℚ) : ℤ := if 0 ≤ q then ⌊q⌋ else ⌈q⌉

/-- The smoothing time constant of engine.py lines 45-46:
`max(1, int(sr * (ms / 1000.0)))` samples.  Note `int()` truncates. -/
def tauSamples (sr : ℕ) (ms : ℚ) : ℕ :=
  max 1 (ratTrunc ((sr : ℚ) * (ms / 1000))).toNat

/-- One step of the one-pole recurrence of engine.py lines 51 and 56:
`prev += (value - prev) / tau`. -/
noncomputable def onePole (tau : ℕ) (prev x : ℝ) : ℝ := prev + (x - prev) / tau

/-- The forward (attack) loop of engine.py lines 50-52, with explicit
carried state: each input sample updates the state and the state is
emitted. -/
noncomputable def forwardPass (env : List ℝ) (prev : ℝ) (tau : ℕ) : List ℝ :=
  match env with
  | [] => []
  | x :: t =>
    let s := onePole tau prev x
    s :: forwardPass t s tau

/-- The backward (release) loop of engine.py lines 54-57: state starts at
the forward pass's last output and the same recurrence runs from the final
sample down to the first.  Implemented by running the forward recurrence on
the reversed list and reversing back. -/
noncomputable def backwardPass (fwd : List ℝ) (tau : ℕ) : List ℝ :=
  match fwd.getLast? with
  | none => []
  | some lastv => (forwardPass fwd.reverse lastv tau).reverse

/-- `smooth_envelope` (engine.py lines 44-58).  `env[0]` raises IndexError
on an empty array, hence `none` on `[]`. -/
noncomputable def smooth_envelope (env : List ℝ) (sr : ℕ)
    (attack_ms release_ms : ℚ) : Option (List ℝ) :=
  match env with
  | [] => none
  | e0 :: _ =>
    let atk := tauSamples sr attack_ms
    let rel := tauSamples sr release_ms
    some (backwardPass (forwardPass env e0 atk) rel)

/-- `np.tile(arr, reps)`: `reps` concatenated copies of `arr`. -/
def npTile (arr : List ℝ) (reps : ℕ) : List ℝ :=
  (List.replicate reps arr).flatten

/-- `loop_to_length` (engine.py lines 60-65).  When `arr.size < length` the
division `(length + arr.size - 1) // arr.size` raises ZeroDivisionError on
an empty array, hence `none`. -/
def loop_to_length (arr : List ℝ) (len : ℕ) : Option (List ℝ) :=
  if len ≤ arr.length then some (arr.take len)
  else if arr.length = 0 then none
  else some ((npTile arr ((len + arr.length - 1) / arr.length)).take len)

/-- Python's `str.lower()` on the ASCII mode strings: lowercase every
character (via `Char.toLower`). -/
def pyLower (s : String) : String := ⟨s.data.map Char.toLower⟩

/-- All envelopes share the first one's length (`np.stack` requirement). -/
def sameLen (envs : List (List ℝ)) : Bool :=
  envs.all (fun e => e.length = (envs.headD []).length)

/-- The values of the stacked envelopes at time index `j` (one per mold). -/
def column (envs : List (List ℝ)) (j : ℕ) : List ℝ :=
  envs.map (fun e => e.getD j 0)

/-- `np.max(E, axis=0)` at index `j` (well-defined for nonempty `envs`). -/
noncomputable def colMax (envs : List (List ℝ)) (j : ℕ) : ℝ :=
  match column envs j with
  | [] => 0
  | x :: t => t.foldl max x

/-- `combine_envelopes` (engine.py lines 67-90), per-sample reduction over
the `(M, N)` stack.  The weights check is line 85:
`if not weights or len(weights) != E.shape[0]`. -/
noncomputable def combine_envelopes (envs : List (List ℝ)) (mode : String)
    (weights : Option (List ℝ)) : Except CombineErr (List ℝ) :=
  if envs.isEmpty || !(sameLen envs) then .error .stackError
  else
    let M := envs.length
    let N := (envs.headD []).length
    let m := pyLower (if mode = "" then "max" else mode)
    if m = "max" then .ok ((List.range N).map (fun j => colMax envs j))
    else if m = "mean" then
      .ok ((List.range N).map (fun j => (column envs j).sum / M))
    else if m = "geom_mean" then
      .ok ((List.range N).map (fun j =>
        Real.exp (((column envs j).map (fun x => Real.log (max 1e-12 x))).sum / M)))
    else if m = "product" then
      .ok ((List.range N).map (fun j =>
        ((column envs j).map (fun x => max 1e-6 x)).prod))
    else if m = "sum_limited" then
      .ok ((List.range N).map (fun j =>
        min ((column envs j).sum) (colMax envs j * 1.5)))
    else if m = "weighted" then
      match weights with
      | none => .error .invalidWeights
      | some w =>
        if w.isEmpty || !(w.length = M : Bool) then .error .invalidWeights
        else .ok ((List.range N).map (fun j =>
          (List.zipWith (fun wi x => wi * x) w (column envs j)).sum / (w.sum + 1e-12)))
    else .ok ((List.range N).map (fun j => colMax envs j))

/-- The per-mold conditioning chain of engine.py lines 135-143:
peak-normalise, smooth, loop to the destination length. -/
noncomputable def conditionEnvelope (env0 : List ℝ) (sr : ℕ)
    (attack_ms release_ms : ℚ) (N : ℕ) : Option (List ℝ) :=
  (normalizeEnv env0).bind fun e1 =>
    (smooth_envelope e1 sr attack_ms release_ms).bind fun e2 =>
      loop_to_length e2 N

/-- The floor clamp of engine.py lines 156-157:
`np.clip(E, db_to_lin(floor_db), None)`. -/
noncomputable def floorClamp (floor_db : ℝ) (E : List ℝ) : List ℝ :=
  E.map (fun x => max (db_to_lin floor_db) x)

/-- The per-channel application of engine.py lines 160-162:
`y_out[ci] = y_dst[ci] * E`. -/
noncomputable def applyStage (y_dst : List (List ℝ)) (E : List ℝ) :
    List (List ℝ) :=
  y_dst.map (fun ch => List.zipWith (fun a b => a * b) ch E)

/-- The loudness-match rescale of engine.py line 173: `y_out * g`. -/
noncomputable def scaleStage (g : ℝ) (y : List (List ℝ)) : List (List ℝ) :=
  y.map (fun ch => ch.map (fun v => v * g))

/-- The configuration dict consumed by `apply_envelopes` (lines 111-119);
`none` models a missing key, defaults are applied at the read site exactly
as `cfg.get(key, default)` does. -/
structure Cfg where
  mode : Option String
  frame : Option ℕ
  hop : Option ℕ
  attack_ms : Option ℚ
  release_ms : Option ℚ
  floor_db : Option ℝ
  combine_mode : Option String
  weights : Option (List ℝ)
  match_lufs : Bool

/-- Python's `(s or default)` on an optional string: `None` and `""` both
fall back to the default. -/
def strOr (s : Option String) (d : String) : String :=
  match s with
  | none => d
  | some v => if v = "" then d else v

/-- The mold loop of engine.py lines 122-146, for molds numbered from `i`
(`enumerate(mold_paths, start=1)`) out of `M = max(1, len(mold_paths))`.
Returns the accumulated envelope list (or the first propagated error)
together with the progress values emitted so far; progress
`5 + int(60 * i / total_m)` fires after each successful mold. -/
noncomputable def processMolds
    (load : String → Option ℕ → Except Err (List (List ℝ) × ℕ))
    (hilbertF : List ℝ → List ℝ) (rmsF : List ℝ → ℕ → ℕ → List ℝ)
    (sr N frame hop : ℕ) (mode : String) (attack_ms release_ms : ℚ) :
    List String → ℕ → ℕ → Except Err (List (List ℝ)) × List ℕ
  | [], _, _ => (.ok [], [])
  | p :: rest, i, M =>
    match load p (some sr) with
    | .error e => (.error e, [])
    | .ok (y_m, _) =>
      let y_mono := to_mono y_m
      let env0 := if mode = "rms" then rmsF y_mono frame hop else hilbertF y_mono
      match conditionEnvelope env0 sr attack_ms release_ms N with
      | none => (.error .lowLevel, [])
      | some env3 =>
        let out := processMolds load hilbertF rmsF sr N frame hop mode
          attack_ms release_ms rest (i + 1) M
        (out.1.map (fun ls => env3 :: ls), (5 + 60 * i / M) :: out.2)

/-- `apply_envelopes` (engine.py lines 101-179).  Returns the buffer handed
to `sf.write` (already mixed down by `to_mono`) or the propagated error,
together with the full sequence of progress values reported to the
progress callback.  `load` is the librosa decode oracle, `hilbertF`/`rmsF`
the envelope detectors, `hasLoud` models `_HAS_LOUD`, `meter` the
pyloudnorm integrated-loudness oracle. -/
noncomputable def apply_envelopes
    (load : String → Option ℕ → Except Err (List (List ℝ) × ℕ))
    (hilbertF : List ℝ → List ℝ) (rmsF : List ℝ → ℕ → ℕ → List ℝ)
    (hasLoud : Bool) (meter : ℕ → List ℝ → ℝ)
    (dest_path : String) (mold_paths : List String) (cfg : Cfg) :
    Except Err (List ℝ) × List ℕ :=
  match load dest_path none with
  | .error e => (.error e, [2])
  | .ok (y_dst, sr) =>
    let y_dst_mono := to_mono y_dst
    let N := y_dst_mono.length
    let mode := pyLower (strOr cfg.mode "hilbert")
    let frame := cfg.frame.getD 2048
    let hop := cfg.hop.getD 512
    let attack_ms := cfg.attack_ms.getD 1
    let release_ms := cfg.release_ms.getD (1/2)
    let floor_db := cfg.floor_db.getD (-40)
    let combine_mode := pyLower (strOr cfg.combine_mode "max")
    let pm := processMolds load hilbertF rmsF sr N frame hop mode
      attack_ms release_ms mold_paths 1 (max 1 mold_paths.length)
    match pm.1 with
    | .error e => (.error e, 2 :: 5 :: pm.2)
    | .ok envs =>
      if envs.isEmpty then (.error .noValidMolds, 2 :: 5 :: pm.2)
      else
        match combine_envelopes envs combine_mode cfg.weights with
        | .error .invalidWeights => (.error .invalidWeights, 2 :: 5 :: pm.2)
        | .error .stackError => (.error .lowLevel, 2 :: 5 :: pm.2)
        | .ok E0 =>
          let E := floorClamp floor_db E0
          let y_out := applyStage y_dst E
          let y_out2 :=
            if cfg.match_lufs && hasLoud then
              scaleStage
                (db_to_lin (meter sr y_dst_mono - meter sr (to_mono y_out)))
                y_out
            else y_out
          (.ok (to_mono y_out2), 2 :: 5 :: (pm.2 ++ [90, 100]))

/-- Modelled from the spec: the spec's claimed smoothing time constant
`max(1, round(sampleRate * attackMs / 1000))` (section 4.3), to be compared
with the code's `tauSamples`. -/
def tauSpecRound (sr : ℕ) (ms : ℚ) : ℕ :=
  max 1 (round ((sr : ℚ) * (ms / 1000))).toNat

/-- A concrete decode oracle for pipeline examples: path `"d"` decodes to a
one-channel destination at 1000 Hz, path `"m"` to a one-channel mold, and
every other path raises a decode error. -/
noncomputable def loadEx : String → Option ℕ → Except Err (List (List ℝ) × ℕ) :=
  fun p _ =>
    if p = "d" then .ok ([[0]], 1000)
    else if p = "m" then .ok ([[1]], 1000)
    else .error (.decode p)

/-- A concrete envelope-detector oracle standing in for `scipy`'s hilbert
envelope in examples. -/
def hilbertEx : List ℝ → List ℝ := fun l => l

/-- A concrete envelope-detector oracle standing in for `librosa`'s RMS
envelope in examples. -/
def rmsEx : List ℝ → ℕ → ℕ → List ℝ := fun l _ _ => l

/-- A concrete loudness-meter oracle for examples. -/
noncomputable def meterEx : ℕ → List ℝ → ℝ := fun _ _ => 0

/-- A concrete configuration for examples: hilbert detection, max combine,
floor at 0 dB, no loudness matching. -/
noncomputable def cfgEx : Cfg :=
  ⟨some "hilbert", some 2048, some 512, some 1, some 1, some 0, some "max", none, false⟩

/-! ### Basic facts about `db_to_lin` -/

lemma db_to_lin_pos (db : ℝ) : 0 < db_to_lin db :=
  Real.rpow_pos_of_pos (by norm_num) _

lemma db_to_lin_le_one_of_nonpos {db : ℝ} (h : db ≤ 0) : db_to_lin db ≤ 1 :=
  Real.rpow_le_one_of_one_le_of_nonpos (by norm_num) (by linarith)

lemma db_to_lin_neg40 : db_to_lin (-40) = 1 / 100 := by
  norm_num [db_to_lin]

lemma db_to_lin_40 : db_to_lin 40 = 100 := by
  norm_num [db_to_lin]

/-! ### List helpers -/

lemma getD_map_range (f : ℕ → ℝ) (n j : ℕ) (h : j < n) :
    ((List.range n).map f).getD j 0 = f j := by
  rw [List.getD_eq_getElem _ _ (by simpa using h)]
  simp

lemma le_foldl_max (t : List ℝ) : ∀ a b : ℝ, b ≤ a → b ≤ t.foldl max a := by
  induction t with
  | nil => exact fun a b h => h
  | cons c t ih =>
    intro a b h
    exact ih (max a c) b (le_trans h (le_max_left _ _))

lemma foldl_max_mem (t : List ℝ) : ∀ a : ℝ, t.foldl max a = a ∨ t.foldl max a ∈ t := by
  induction t with
  | nil => exact fun a => Or.inl rfl
  | cons c t ih =>
    intro a
    rcases ih (max a c) with h | h
    · rcases max_cases a c with ⟨he, _⟩ | ⟨he, _⟩
      · exact Or.inl (by rw [List.foldl_cons, h, he])
      · exact Or.inr (by rw [List.foldl_cons, h, he]; exact List.mem_cons_self _ _)
    · exact Or.inr (List.mem_cons_of_mem _ h)

end CopyEnvelope

namespace CopyEnvelope

/-! ### Claim C4: floor clamp -/

/-- C4 (amended): after the floor clamp every sample is at least
`db_to_lin floor_db = 10^(floor_db/20)`; there is no upper clamp, i.e. any
sample already at or above the floor is left unchanged positionally (hence
for any `floor_db ≤ 0` every sample greater than 1 is unchanged), and for
`floor_db = -40` every output sample is at least `1/100`. -/
theorem c4_floor_clamp (fdb : ℝ) (E : List ℝ) :
    (∀ x ∈ floorClamp fdb E, db_to_lin fdb ≤ x) ∧
    (∀ i : ℕ, db_to_lin fdb ≤ E.getD i 0 →
      (floorClamp fdb E).getD i 0 = E.getD i 0) ∧
    (fdb ≤ 0 → ∀ i : ℕ, 1 < E.getD i 0 →
      (floorClamp fdb E).getD i 0 = E.getD i 0) ∧
    (∀ x ∈ floorClamp (-40) E, 1 / 100 ≤ x) := by
  have key : ∀ i : ℕ, db_to_lin fdb ≤ E.getD i 0 →
      (floorClamp fdb E).getD i 0 = E.getD i 0 := by
    intro i hi
    by_cases h : i < E.length
    · rw [List.getD_eq_getElem _ _ h] at hi
      rw [floorClamp, List.getD_eq_getElem _ _ (by simpa using h),
        List.getElem_map, List.getD_eq_getElem _ _ h]
      exact max_eq_right hi
    · have hlen : E.length ≤ i := le_of_not_lt h
      rw [List.getD_eq_default _ _ hlen] at hi
      exact absurd hi (not_le.2 (db_to_lin_pos fdb))
  refine ⟨?_, key, ?_, ?_⟩
  · intro x hx
    rcases List.mem_map.1 hx with ⟨a, _, rfl⟩
    exact le_max_left _ _
  · intro h0 i hi
    refine key i ?_
    calc db_to_lin fdb ≤ 1 := db_to_lin_le_one_of_nonpos h0
      _ ≤ E.getD i 0 := le_of_lt hi
  · intro x hx
    rcases List.mem_map.1 hx with ⟨a, _, rfl⟩
    calc (1 : ℝ) / 100 = db_to_lin (-40) := db_to_lin_neg40.symm
      _ ≤ max (db_to_lin (-40)) a := le_max_left _ _

/-- C4 counterexample: with `floor_db = 40` the sample `2 > 1` is *not*
left unchanged — the floor clamp raises it to `10^(40/20) = 100` — so the
claim's "samples greater than 1 are left unchanged" fails for positive
`floor_db`. -/
theorem c4_counterexample :
    1 < (2 : ℝ) ∧ floorClamp 40 [(2 : ℝ)] = [(100 : ℝ)] ∧ (100 : ℝ) ≠ 2 := by
  refine ⟨by norm_num, ?_, by norm_num⟩
  rw [floorClamp, List.map_cons, List.map_nil, db_to_lin_40]
  norm_num

/-- C4 witness: instantiation of `c4_floor_clamp` at `floor_db = -40` and
the concrete envelope `[2, 1/200]`. -/
theorem c4_witness :
    (∀ x ∈ floorClamp (-40) [(2 : ℝ), 1 / 200], 1 / 100 ≤ x) ∧
    (floorClamp (-40) [(2 : ℝ), 1 / 200]).getD 0 0 = 2 := by
  refine ⟨(c4_floor_clamp (-40) [(2 : ℝ), 1 / 200]).2.2.2, ?_⟩
  have h := (c4_floor_clamp (-40) [(2 : ℝ), 1 / 200]).2.1 0
  rw [db_to_lin_neg40] at h
  simpa using h (by norm_num)

/-! ### Claim C10: the conditioning stage is not total on empty input -/

/-- C10: smoothing an empty envelope hits the out-of-bounds read `env[0]`
(modelled as `none`), looping an empty array to any positive target length
hits the division by `arr.size = 0` (modelled as `none`), `np.max` of an
empty envelope fails in peak normalisation, and hence the whole
conditioning chain is not total on a zero-length input. -/
theorem c10_condition_not_total (sr : ℕ) (a r : ℚ) (N : ℕ) (hN : 1 ≤ N) :
    smooth_envelope [] sr a r = none ∧ loop_to_length [] N = none ∧
    normalizeEnv [] = none ∧ conditionEnvelope [] sr a r N = none := by
  refine ⟨rfl, ?_, rfl, rfl⟩
  rw [loop_to_length, if_neg (by simp; omega)]
  simp

/-- C10 witness: `c10_condition_not_total` at `sr = 44100`, attack 1 ms,
release 0.5 ms, target length 5. -/
theorem c10_witness :
    smooth_envelope [] 44100 1 (1 / 2) = none ∧
    loop_to_length [] 5 = none ∧
    normalizeEnv [] = none ∧
    conditionEnvelope [] 44100 1 (1 / 2) 5 = none :=
  c10_condition_not_total 44100 1 (1 / 2) 5 (by norm_num)

/-! ### More list helpers -/

lemma getDq_lt (e : List ℝ) {i : ℕ} (h : i < e.length) : e[i]?.getD 0 = e[i] := by
  simp only [List.getElem?_eq_getElem h, Option.getD_some]

lemma getD_lt (e : List ℝ) {i : ℕ} (h : i < e.length) : e.getD i 0 = e[i] := by
  simp only [List.getD_eq_getElem?_getD, getDq_lt e h]

lemma map_getD_range_self (e : List ℝ) :
    (List.range e.length).map (fun j => e.getD j 0) = e := by
  apply List.ext_getElem (by simp)
  intro i h1 h2
  simp only [List.getElem_map, List.getElem_range, getD_lt e h2]

lemma column_single (e : List ℝ) (j : ℕ) : column [e] j = [e.getD j 0] := by
  simp [column]

lemma colMax_single (e : List ℝ) (j : ℕ) : colMax [e] j = e.getD j 0 := by
  rw [colMax, column_single]
  rfl

lemma isOk_error (x : CombineErr) :
    (Except.error x : Except CombineErr (List ℝ)).isOk = false := rfl

lemma isOk_ok (a : List ℝ) :
    (Except.ok a : Except CombineErr (List ℝ)).isOk = true := rfl

/-! ### Claim C2: weighted combine arity check -/

/-- In `weighted` mode, for a well-formed stack, the result is either the
weights `ValueError` together with the failure of the arity condition, or a
success together with the arity condition `len(weights) == M` (and weights
nonempty). -/
lemma combine_weighted_cases (envs : List (List ℝ)) (w : Option (List ℝ))
    (h1 : envs ≠ []) (h2 : sameLen envs = true) :
    (combine_envelopes envs "weighted" w = .error .invalidWeights ∧
      ¬ ∃ l, w = some l ∧ l ≠ [] ∧ l.length = envs.length) ∨
    ((combine_envelopes envs "weighted" w).isOk = true ∧
      ∃ l, w = some l ∧ l ≠ [] ∧ l.length = envs.length) := by
  rw [combine_envelopes, if_neg (by simp [h2, List.isEmpty_iff, h1])]
  cases w with
  | none =>
    left
    simp +decide only [if_true, if_false]
    simp
  | some l =>
    by_cases hl : (l.isEmpty || !(decide (l.length = envs.length))) = true
    · left
      simp +decide only [hl, if_true, if_false]
      refine ⟨by trivial, ?_⟩
      rintro ⟨l2, hle, hne, hlen⟩
      obtain rfl : l2 = l := by injection hle.symm
      simp [List.isEmpty_iff, hne, hlen] at hl
    · right
      simp +decide only [Bool.not_eq_true] at hl
      simp +decide only [hl, if_true, if_false]
      refine ⟨isOk_ok _, l, rfl, ?_, ?_⟩
      · intro hnil
        simp [hnil] at hl
      · by_contra hlen
        simp [hlen] at hl

/-- C2 (amended): for a well-formed stack of `M ≥ 1` envelopes, combining
with mode `weighted` succeeds iff a weight list is supplied, is nonempty,
and has length exactly `M`; it fails with the invalid-weights error exactly
otherwise.  In particular (contrary to the claim) a length-1 weight list is
rejected whenever `M ≠ 1`: the code checks `len(weights) != E.shape[0]`
with no broadcast of a single weight. -/
theorem c2_weighted_arity (envs : List (List ℝ)) (w : Option (List ℝ))
    (h1 : envs ≠ []) (h2 : sameLen envs = true) :
    (combine_envelopes envs "weighted" w = .error .invalidWeights ↔
      ¬ ∃ l, w = some l ∧ l ≠ [] ∧ l.length = envs.length) ∧
    ((combine_envelopes envs "weighted" w).isOk = true ↔
      ∃ l, w = some l ∧ l ≠ [] ∧ l.length = envs.length) := by
  rcases combine_weighted_cases envs w h1 h2 with ⟨he, hn⟩ | ⟨ho, hy⟩
  · refine ⟨⟨fun _ => hn, fun _ => he⟩, ?_, ?_⟩
    · intro hok
      rw [he] at hok
      exact absurd hok (by simp [isOk_error])
    · intro hex
      exact absurd hex hn
  · refine ⟨⟨?_, ?_⟩, fun _ => hy, fun _ => ho⟩
    · intro herr
      rw [herr] at ho
      simp [isOk_error] at ho
    · intro hnex
      exact absurd hy hnex

/-- C2 counterexample: with `M = 2` envelopes and a single weight
(`len(weights) = 1 ∈ {1, M}`), the claim predicts success, but the code
raises the invalid-weights `ValueError`. -/
theorem c2_counterexample :
    combine_envelopes [[(1 : ℝ)], [1]] "weighted" (some [1]) =
      .error .invalidWeights := by
  simp +decide [combine_envelopes, sameLen]

/-- C2 witness: `c2_weighted_arity` at two envelopes and two weights. -/
theorem c2_witness :
    (combine_envelopes [[(1 : ℝ)], [1]] "weighted" (some [1, 2])).isOk = true :=
  ((c2_weighted_arity [[(1 : ℝ)], [1]] (some [1, 2]) (by simp)
    (by simp [sameLen])).2).2 ⟨[1, 2], rfl, by simp, by simp⟩

/-! ### Claim C7: combining a single envelope -/

/-- C7 (amended): with a single nonnegative envelope, `combine` returns it
unchanged for `max`, `mean`, `sum_limited` and every unrecognized mode
(which falls back to `max`); but `geom_mean` clips values below `1e-12` up
to `1e-12`, `product` clips values below `1e-6` up to `1e-6`, and
`weighted` with weight `w` scales by `w / (w + 1e-12)` (not exactly by
`w`). -/
theorem c7_single_envelope (e : List ℝ) (he : ∀ x ∈ e, 0 ≤ x) :
    (∀ m : String, pyLower (if m = "" then "max" else m) ∉
        (["mean", "geom_mean", "product", "sum_limited", "weighted"] : List String) →
      combine_envelopes [e] m none = .ok e) ∧
    combine_envelopes [e] "mean" none = .ok e ∧
    combine_envelopes [e] "sum_limited" none = .ok e ∧
    combine_envelopes [e] "geom_mean" none = .ok (e.map (fun x => max 1e-12 x)) ∧
    combine_envelopes [e] "product" none = .ok (e.map (fun x => max 1e-6 x)) ∧
    (∀ wv : ℝ, combine_envelopes [e] "weighted" (some [wv]) =
      .ok (e.map (fun x => wv * x / (wv + 1e-12)))) := by
  refine ⟨?_, ?_, ?_, ?_, ?_, ?_⟩
  · intro m hm
    simp only [List.mem_cons, List.not_mem_nil, or_false, not_or] at hm
    obtain ⟨h1, h2, h3, h4, h5⟩ := hm
    rw [combine_envelopes, if_neg (by simp [sameLen])]
    by_cases hmax : pyLower (if m = "" then "max" else m) = "max"
    · rw [if_pos hmax]
      congr 1
      simp only [List.headD_cons, colMax_single]
      exact map_getD_range_self e
    · rw [if_neg hmax, if_neg h1, if_neg h2, if_neg h3, if_neg h4, if_neg h5]
      congr 1
      simp only [List.headD_cons, colMax_single]
      exact map_getD_range_self e
  · rw [combine_envelopes]
    simp +decide [sameLen, column_single, colMax_single]
    apply List.ext_getElem (by simp)
    intro i h1 h2
    simp only [List.getElem_map, List.getElem_range, getDq_lt e h2]
  · rw [combine_envelopes]
    simp +decide [sameLen, column_single, colMax_single]
    apply List.ext_getElem (by simp)
    intro i h1 h2
    simp only [List.getElem_map, List.getElem_range, getDq_lt e h2]
    have hx : 0 ≤ e[i] := he _ (List.getElem_mem h2)
    have hle : e[i] ≤ e[i] * 1.5 := by nlinarith
    exact min_eq_left hle
  · rw [combine_envelopes]
    simp +decide [sameLen, column_single, colMax_single]
    apply List.ext_getElem (by simp)
    intro i h1 h2
    have h2e : i < e.length := by simpa using h2
    simp only [List.getElem_map, List.getElem_range, getDq_lt e h2e]
    exact Real.exp_log (lt_of_lt_of_le (by norm_num) (le_max_left _ _))
  · rw [combine_envelopes]
    simp +decide [sameLen, column_single, colMax_single]
    apply List.ext_getElem (by simp)
    intro i h1 h2
    have h2e : i < e.length := by simpa using h2
    simp only [List.getElem_map, List.getElem_range, getDq_lt e h2e]
  · intro wv
    rw [combine_envelopes]
    simp +decide [sameLen, column_single, colMax_single]
    apply List.ext_getElem (by simp)
    intro i h1 h2
    have h2e : i < e.length := by simpa using h2
    simp only [List.getElem_map, List.getElem_range, getDq_lt e h2e]

/-- C7 counterexample: `combine([[0]], mode="product")` does not return the
envelope unchanged — the clip `np.clip(E, 1e-6, None)` lifts the zero
sample to `1e-6`. -/
theorem c7_counterexample :
    combine_envelopes [[(0 : ℝ)]] "product" none = .ok [(1e-6 : ℝ)] ∧
    (1e-6 : ℝ) ≠ 0 := by
  constructor
  · simp +decide [combine_envelopes, sameLen, column, colMax, List.range_succ]
    norm_num
  · norm_num

/-- C7 witness: `c7_single_envelope` at the concrete envelope `[1, 1/2]`. -/
theorem c7_witness :
    combine_envelopes [[(1 : ℝ), 1 / 2]] "mean" none = .ok [(1 : ℝ), 1 / 2] :=
  (c7_single_envelope [(1 : ℝ), 1 / 2] (by
    intro x hx
    simp only [List.mem_cons, List.not_mem_nil, or_false] at hx
    rcases hx with rfl | rfl <;> norm_num)).2.1

/-! ### Claim C8: weighted [1,1] versus mean on an identical pair -/

/-- C8 (amended): over two identical envelopes, `mean` returns the envelope
itself, while `weighted` with weights `[1, 1]` returns it scaled by
`2 / (2 + 1e-12)` — equal to `mean` only up to the `1e-12` denominator
regularizer (exact equality holds only at zero samples). -/
theorem c8_weighted_vs_mean (e : List ℝ) :
    combine_envelopes [e, e] "mean" none = .ok e ∧
    combine_envelopes [e, e] "weighted" (some [1, 1]) =
      .ok (e.map (fun x => x * (2 / (2 + 1e-12)))) := by
  constructor
  · rw [combine_envelopes]
    simp +decide [sameLen, column]
    apply List.ext_getElem (by simp)
    intro i h1 h2
    simp only [List.getElem_map, List.getElem_range, getDq_lt e h2]
  · rw [combine_envelopes]
    simp +decide [sameLen, column]
    apply List.ext_getElem (by simp)
    intro i h1 h2
    have h2e : i < e.length := by simpa using h2
    simp only [List.getElem_map, List.getElem_range, getDq_lt e h2e]
    have hd : (2 + 1e-12 : ℝ) ≠ 0 := by norm_num
    field_simp
    ring

/-- C8 counterexample: on the identical pair `[[1]], [[1]]`, `mean` yields
`[1]` but `weighted [1,1]` yields `[2 / (2 + 1e-12)] ≠ [1]`, so the two
combine calls are not equal. -/
theorem c8_counterexample :
    combine_envelopes [[(1 : ℝ)], [1]] "mean" none = .ok [(1 : ℝ)] ∧
    combine_envelopes [[(1 : ℝ)], [1]] "weighted" (some [1, 1]) =
      .ok [(2 / (2 + 1e-12) : ℝ)] ∧
    (2 / (2 + 1e-12) : ℝ) ≠ 1 := by
  refine ⟨?_, ?_, by norm_num⟩
  · simp +decide [combine_envelopes, sameLen, column, List.range_succ]
  · simp +decide [combine_envelopes, sameLen, column, List.range_succ]
    norm_num

lemma onePole_self (a : ℕ) (p : ℝ) : onePole a p p = p := by
  simp [onePole]

lemma onePole_nonneg {a : ℕ} (ha : 1 ≤ a) {p x : ℝ} (hp : 0 ≤ p) (hx : 0 ≤ x) :
    0 ≤ onePole a p x := by
  have haR : (1 : ℝ) ≤ (a : ℝ) := by exact_mod_cast ha
  have ha0 : (0 : ℝ) < (a : ℝ) := by linarith
  rw [onePole, show p + (x - p) / (a : ℝ) = (p * ((a : ℝ) - 1) + x) / a by
    field_simp; ring]
  apply div_nonneg _ (le_of_lt ha0)
  have := mul_nonneg hp (by linarith : (0:ℝ) ≤ (a : ℝ) - 1)
  linarith

lemma forwardPass_length (env : List ℝ) : ∀ (p : ℝ) (a : ℕ),
    (forwardPass env p a).length = env.length := by
  induction env with
  | nil => intro p a; rfl
  | cons x t ih => intro p a; simp only [forwardPass, List.length_cons, ih]

lemma forwardPass_nonneg (env : List ℝ) : ∀ (p : ℝ) (a : ℕ), 1 ≤ a → 0 ≤ p →
    (∀ x ∈ env, 0 ≤ x) → ∀ y ∈ forwardPass env p a, 0 ≤ y := by
  induction env with
  | nil => intro p a _ _ _ y hy; simp [forwardPass] at hy
  | cons x t ih =>
    intro p a ha hp hmem y hy
    simp only [forwardPass] at hy
    have hs : 0 ≤ onePole a p x := onePole_nonneg ha hp (hmem x (List.mem_cons_self _ _))
    rcases List.mem_cons.1 hy with rfl | hy2
    · exact hs
    · exact ih (onePole a p x) a ha hs
        (fun z hz => hmem z (List.mem_cons_of_mem _ hz)) y hy2

lemma backwardPass_length (fwd : List ℝ) (r : ℕ) :
    (backwardPass fwd r).length = fwd.length := by
  rw [backwardPass]
  cases h : fwd.getLast? with
  | none => rw [List.getLast?_eq_none_iff.1 h]
  | some lastv => simp [forwardPass_length]

lemma mem_of_getLast?_eq (fwd : List ℝ) (v : ℝ) (h : fwd.getLast? = some v) :
    v ∈ fwd := by
  rw [List.getLast?_eq_getElem?] at h
  obtain ⟨hlt, hv⟩ := List.getElem?_eq_some.1 h
  exact hv ▸ List.getElem_mem hlt

lemma backwardPass_nonneg (fwd : List ℝ) (r : ℕ) (hr : 1 ≤ r)
    (hmem : ∀ x ∈ fwd, 0 ≤ x) : ∀ y ∈ backwardPass fwd r, 0 ≤ y := by
  rw [backwardPass]
  cases h : fwd.getLast? with
  | none => simp
  | some lastv =>
    intro y hy
    rw [List.mem_reverse] at hy
    exact forwardPass_nonneg fwd.reverse lastv r hr
      (hmem _ (mem_of_getLast?_eq fwd lastv h))
      (fun z hz => hmem z (List.mem_reverse.1 hz)) y hy

lemma smooth_envelope_cons (x : ℝ) (t : List ℝ) (sr : ℕ) (a r : ℚ) :
    smooth_envelope (x :: t) sr a r =
      some (backwardPass (forwardPass (x :: t) x (tauSamples sr a))
        (tauSamples sr r)) := rfl

lemma one_le_tauSamples (sr : ℕ) (ms : ℚ) : 1 ≤ tauSamples sr ms :=
  le_max_left 1 _

lemma smooth_envelope_spec (env : List ℝ) (h : env ≠ []) (sr : ℕ) (a r : ℚ) :
    ∃ out, smooth_envelope env sr a r = some out ∧ out.length = env.length ∧
      ((∀ x ∈ env, 0 ≤ x) → ∀ y ∈ out, 0 ≤ y) ∧
      out = backwardPass (forwardPass env (env.headD 0) (tauSamples sr a))
        (tauSamples sr r) := by
  cases env with
  | nil => exact absurd rfl h
  | cons x t =>
    refine ⟨_, smooth_envelope_cons x t sr a r, ?_, ?_, by rw [List.headD_cons]⟩
    · rw [backwardPass_length, forwardPass_length]
    · intro hm
      exact backwardPass_nonneg _ _ (one_le_tauSamples sr r)
        (forwardPass_nonneg _ _ _ (one_le_tauSamples sr a)
          (hm x (List.mem_cons_self _ _)) hm)

lemma normalizeEnv_cons (x : ℝ) (t : List ℝ) :
    normalizeEnv (x :: t) =
      some ((x :: t).map (fun v => v / (t.foldl max x + 1e-12))) := rfl

lemma normalizeEnv_spec (env : List ℝ) (h : env ≠ []) :
    ∃ e1, normalizeEnv env = some e1 ∧ e1.length = env.length ∧
      ((∀ x ∈ env, 0 ≤ x) → ∀ y ∈ e1, 0 ≤ y) := by
  cases env with
  | nil => exact absurd rfl h
  | cons x t =>
    refine ⟨_, normalizeEnv_cons x t, by simp, ?_⟩
    intro hm y hy
    rcases List.mem_map.1 hy with ⟨v, hv, rfl⟩
    apply div_nonneg (hm v hv)
    have hx0 : (0 : ℝ) ≤ x := hm x (List.mem_cons_self _ _)
    have hfold : x ≤ t.foldl max x := le_foldl_max t x x le_rfl
    have heps : (0 : ℝ) < 1e-12 := by norm_num
    linarith



lemma npTile_length (arr : List ℝ) (reps : ℕ) :
    (npTile arr reps).length = reps * arr.length := by
  simp [npTile, Function.comp]

lemma mem_npTile (arr : List ℝ) (reps : ℕ) (y : ℝ) (hy : y ∈ npTile arr reps) :
    y ∈ arr := by
  rw [npTile, List.mem_flatten] at hy
  obtain ⟨l, hl, hyl⟩ := hy
  rwa [List.eq_of_mem_replicate hl] at hyl

lemma loop_to_length_spec (arr : List ℝ) (h : arr ≠ []) (len : ℕ) :
    ∃ out, loop_to_length arr len = some out ∧ out.length = len ∧
      (∀ y ∈ out, y ∈ arr) ∧
      (len ≤ arr.length → out = arr.take len) ∧
      (arr.length < len →
        out = (npTile arr ((len + arr.length - 1) / arr.length)).take len) := by
  by_cases hl : len ≤ arr.length
  · refine ⟨arr.take len, ?_, ?_, ?_, fun _ => rfl, fun hlt => absurd hl (not_le.2 hlt)⟩
    · rw [loop_to_length, if_pos hl]
    · rw [List.length_take]; omega
    · intro y hy; exact List.mem_of_mem_take hy
  · push_neg at hl
    have hL : 0 < arr.length := List.length_pos.2 h
    have reps_ge : len ≤ ((len + arr.length - 1) / arr.length) * arr.length := by
      have hdm := Nat.div_add_mod (len + arr.length - 1) arr.length
      have hmod : (len + arr.length - 1) % arr.length < arr.length := Nat.mod_lt _ hL
      rw [mul_comm]
      omega
    refine ⟨_, ?_, ?_, ?_, fun hle => absurd hle (by omega), fun _ => rfl⟩
    · rw [loop_to_length, if_neg (by omega), if_neg (by omega)]
    · rw [List.length_take, npTile_length]; omega
    · intro y hy
      exact mem_npTile _ _ _ (List.mem_of_mem_take hy)

lemma conditionEnvelope_spec (env0 : List ℝ) (sr : ℕ) (a r : ℚ) (N : ℕ)
    (h0 : env0 ≠ []) (hnn : ∀ x ∈ env0, 0 ≤ x) :
    ∃ e1 e2 out, normalizeEnv env0 = some e1 ∧
      smooth_envelope e1 sr a r = some e2 ∧
      loop_to_length e2 N = some out ∧
      conditionEnvelope env0 sr a r N = some out ∧
      out.length = N ∧ (∀ x ∈ out, 0 ≤ x) ∧
      (N ≤ e2.length → out = e2.take N) ∧
      (e2.length < N →
        out = (npTile e2 ((N + e2.length - 1) / e2.length)).take N) := by
  obtain ⟨e1, he1, hlen1, hnn1⟩ := normalizeEnv_spec env0 h0
  have he1ne : e1 ≠ [] := by
    intro hcon
    rw [hcon] at hlen1
    exact h0 (List.length_eq_zero.1 hlen1.symm)
  obtain ⟨e2, he2, hlen2, hnn2, _⟩ := smooth_envelope_spec e1 he1ne sr a r
  have he2ne : e2 ≠ [] := by
    intro hcon
    rw [hcon] at hlen2
    exact he1ne (List.length_eq_zero.1 hlen2.symm)
  obtain ⟨out, hout, hlenout, hmem, htrunc, htile⟩ := loop_to_length_spec e2 he2ne N
  refine ⟨e1, e2, out, he1, he2, hout, ?_, hlenout, ?_, htrunc, htile⟩
  · simp [conditionEnvelope, he1, he2, hout]
  · intro x hx
    exact hnn2 (hnn1 hnn) x (hmem x hx)



lemma forwardPass_getD_zero (x : ℝ) (t : List ℝ) (p : ℝ) (a : ℕ) :
    (forwardPass (x :: t) p a).getD 0 0 = onePole a p x := rfl

lemma forwardPass_getD_succ (env : List ℝ) : ∀ (p : ℝ) (a : ℕ) (i : ℕ),
    i + 1 < env.length →
    (forwardPass env p a).getD (i + 1) 0 =
      onePole a ((forwardPass env p a).getD i 0) (env.getD (i + 1) 0) := by
  induction env with
  | nil => intro p a i h; simp at h
  | cons x t ih =>
    intro p a i h
    cases i with
    | zero =>
      cases t with
      | nil => simp at h
      | cons y t2 =>
        simp only [forwardPass, List.getD_cons_succ, List.getD_cons_zero]
    | succ i2 =>
      have h2 : i2 + 1 < t.length := by simpa using h
      calc (forwardPass (x :: t) p a).getD (i2 + 2) 0
          = (forwardPass t (onePole a p x) a).getD (i2 + 1) 0 := by
            simp only [forwardPass, List.getD_cons_succ]
        _ = onePole a ((forwardPass t (onePole a p x) a).getD i2 0)
              (t.getD (i2 + 1) 0) := ih (onePole a p x) a i2 h2
        _ = onePole a ((forwardPass (x :: t) p a).getD (i2 + 1) 0)
              ((x :: t).getD (i2 + 2) 0) := by
            simp only [forwardPass, List.getD_cons_succ]

lemma getD_reverse (l : List ℝ) {i : ℕ} (h : i < l.length) :
    l.reverse.getD i 0 = l.getD (l.length - 1 - i) 0 := by
  rw [getD_lt _ (by simpa using h), getD_lt _ (by omega)]
  exact List.getElem_reverse (by simpa using h)

lemma getLast?_eq_getD (x : ℝ) (t : List ℝ) :
    (x :: t).getLast? = some ((x :: t).getD ((x :: t).length - 1) 0) := by
  rw [List.getLast?_eq_getElem?,
    List.getElem?_eq_getElem (by simp : (x :: t).length - 1 < (x :: t).length),
    getD_lt _ (by simp)]

lemma backwardPass_getD_last (fwd : List ℝ) (r : ℕ) (h : fwd ≠ []) :
    (backwardPass fwd r).getD (fwd.length - 1) 0 =
      fwd.getD (fwd.length - 1) 0 := by
  cases fwd with
  | nil => exact absurd rfl h
  | cons x t =>
    rw [backwardPass, getLast?_eq_getD x t]
    set L := (x :: t).length with hL
    have hLpos : 0 < L := by simp [hL]
    have hrevlen : (forwardPass (x :: t).reverse ((x :: t).getD (L - 1) 0) r).length = L := by
      rw [forwardPass_length, List.length_reverse]
    have hlt : L - 1 < (forwardPass (x :: t).reverse ((x :: t).getD (L - 1) 0) r).reverse.length := by
      rw [List.length_reverse, hrevlen]; omega
    rw [getD_lt _ hlt]
    rw [List.getElem_reverse]
    rw [← getD_lt _ (by rw [hrevlen]; omega)]
    rw [hrevlen]
    have : L - 1 - (L - 1) = 0 := by omega
    rw [this]
    cases hrev : (x :: t).reverse with
    | nil => exact absurd (List.reverse_eq_nil_iff.1 hrev) (List.cons_ne_nil x t)
    | cons z zs =>
      rw [forwardPass_getD_zero]
      have hz : z = (x :: t).getD (L - 1) 0 := by
        have h0 : (x :: t).reverse.getD 0 0 = z := by rw [hrev]; rfl
        rw [getD_reverse (x :: t) (by simp)] at h0
        simp only [Nat.sub_zero] at h0
        exact h0.symm
      rw [← hz, onePole_self]



lemma backwardPass_getD_succ (fwd : List ℝ) (r : ℕ) (i : ℕ)
    (h : i + 1 < fwd.length) :
    (backwardPass fwd r).getD i 0 =
      onePole r ((backwardPass fwd r).getD (i + 1) 0) (fwd.getD i 0) := by
  cases fwd with
  | nil => simp at h
  | cons x t =>
    rw [backwardPass, getLast?_eq_getD x t]
    set L := (x :: t).length with hL
    have hiL : i + 1 < L := h
    set v := (x :: t).getD (L - 1) 0 with hv
    set fp := forwardPass (x :: t).reverse v r with hfp
    have hfpl : fp.length = L := by
      rw [hfp, forwardPass_length, List.length_reverse]
    have h1 : fp.reverse.getD i 0 = fp.getD (L - 1 - i) 0 := by
      rw [getD_reverse fp (by rw [hfpl]; omega), hfpl]
    have h2 : fp.reverse.getD (i + 1) 0 = fp.getD (L - 1 - (i + 1)) 0 := by
      rw [getD_reverse fp (by rw [hfpl]; omega), hfpl]
    rw [h1, h2]
    have hk : L - 1 - i = (L - 1 - (i + 1)) + 1 := by omega
    rw [hk, hfp]
    rw [forwardPass_getD_succ (x :: t).reverse v r (L - 1 - (i + 1))
      (by rw [List.length_reverse]; omega)]
    congr 1
    rw [← hk, getD_reverse (x :: t) (by omega : L - 1 - i < (x :: t).length)]
    congr 1
    omega

/-- C6 (amended): the attack time constant is
`max(1, trunc(sr * attackMs / 1000))` — Python `int()` truncation toward
zero, not rounding — and release analogously; the forward pass initialises
its state to the first sample and applies `state += (value - state) / τ_a`
at each index, and the backward pass starts from the forward pass's last
output and runs the same recurrence from the final sample down to the
first. -/
theorem c6_smoothing (env : List ℝ) (sr : ℕ) (a r : ℚ) (h : env ≠ []) :
    tauSamples sr a = max 1 (ratTrunc ((sr : ℚ) * (a / 1000))).toNat ∧
    ∃ out, smooth_envelope env sr a r = some out ∧
      out.length = env.length ∧
      (forwardPass env (env.headD 0) (tauSamples sr a)).getD 0 0 =
        onePole (tauSamples sr a) (env.getD 0 0) (env.getD 0 0) ∧
      (∀ i, i + 1 < env.length →
        (forwardPass env (env.headD 0) (tauSamples sr a)).getD (i + 1) 0 =
          onePole (tauSamples sr a)
            ((forwardPass env (env.headD 0) (tauSamples sr a)).getD i 0)
            (env.getD (i + 1) 0)) ∧
      out.getD (env.length - 1) 0 =
        (forwardPass env (env.headD 0) (tauSamples sr a)).getD (env.length - 1) 0 ∧
      (∀ i, i + 1 < env.length →
        out.getD i 0 =
          onePole (tauSamples sr r) (out.getD (i + 1) 0)
            ((forwardPass env (env.headD 0) (tauSamples sr a)).getD i 0)) := by
  refine ⟨rfl, ?_⟩
  obtain ⟨out, hsome, hlen, _, hform⟩ := smooth_envelope_spec env h sr a r
  have hfwdlen : (forwardPass env (env.headD 0) (tauSamples sr a)).length = env.length :=
    forwardPass_length env _ _
  have hfwdne : forwardPass env (env.headD 0) (tauSamples sr a) ≠ [] := by
    intro hcon
    rw [hcon] at hfwdlen
    exact h (List.length_eq_zero.1 hfwdlen.symm)
  refine ⟨out, hsome, hlen, ?_, ?_, ?_, ?_⟩
  · cases env with
    | nil => exact absurd rfl h
    | cons x t =>
      rw [List.headD_cons, forwardPass_getD_zero, List.getD_cons_zero]
  · intro i hi
    exact forwardPass_getD_succ env (env.headD 0) (tauSamples sr a) i hi
  · rw [hform, ← hfwdlen, backwardPass_getD_last _ _ hfwdne]
  · intro i hi
    rw [hform, backwardPass_getD_succ _ _ i (by rw [hfwdlen]; exact hi)]

/-! ### Pipeline lemmas (claims C1, C3, C9) -/

lemma isOkE_error (x : Err) (β : Type) (b : β) :
    (Except.error x : Except Err β) ≠ .ok b := by
  intro h
  injection h

lemma processMolds_ok
    (load : String → Option ℕ → Except Err (List (List ℝ) × ℕ))
    (hF : List ℝ → List ℝ) (rF : List ℝ → ℕ → ℕ → List ℝ)
    (sr N frame hop : ℕ) (mode : String) (a r : ℚ) :
    ∀ (molds : List String) (i M : ℕ) (envs : List (List ℝ)),
      (processMolds load hF rF sr N frame hop mode a r molds i M).1 = .ok envs →
      envs.length = molds.length ∧
      (∀ p ∈ molds, (load p (some sr)).isOk = true) ∧
      (processMolds load hF rF sr N frame hop mode a r molds i M).2 =
        (List.range molds.length).map (fun k => 5 + 60 * (i + k) / M) := by
  intro molds
  induction molds with
  | nil =>
    intro i M envs h
    refine ⟨?_, by simp, by simp [processMolds]⟩
    have : envs = [] := by
      rw [processMolds] at h
      injection h with h2
      exact h2.symm
    simp [this, processMolds]
  | cons p rest ih =>
    intro i M envs h
    rw [processMolds] at h
    cases hload : load p (some sr) with
    | error e =>
      rw [hload] at h
      exact absurd h (isOkE_error e _ envs)
    | ok ym =>
      obtain ⟨y_m, srm⟩ := ym
      rw [hload] at h
      dsimp only at h
      cases hcond : conditionEnvelope
          (if mode = "rms" then rF (to_mono y_m) frame hop else hF (to_mono y_m))
          sr a r N with
      | none =>
        rw [hcond] at h
        exact absurd h (isOkE_error Err.lowLevel _ envs)
      | some env3 =>
        rw [hcond] at h
        dsimp only at h
        cases hrest : (processMolds load hF rF sr N frame hop mode a r rest (i + 1) M).1 with
        | error e =>
          rw [hrest] at h
          exact absurd h (isOkE_error e _ envs)
        | ok es =>
          rw [hrest] at h
          obtain ⟨hlen, hloads, hprog⟩ := ih (i + 1) M es hrest
          have henvs : envs = env3 :: es := by
            injection h with h2
            exact h2.symm
          refine ⟨by simp [henvs, hlen], ?_, ?_⟩
          · intro q hq
            rcases List.mem_cons.1 hq with rfl | hq2
            · rw [hload]; rfl
            · exact hloads q hq2
          · rw [processMolds, hload]
            dsimp only
            rw [hcond]
            dsimp only
            rw [hprog]
            simp only [List.length_cons]
            rw [List.range_succ_eq_map, List.map_cons, List.map_map]
            congr 1
            apply List.map_congr_left
            intro k _
            simp only [Function.comp_apply, Nat.succ_eq_add_one]
            have harg : i + 1 + k = i + (k + 1) := by omega
            rw [harg]



lemma apply_envelopes_ok
    (load : String → Option ℕ → Except Err (List (List ℝ) × ℕ))
    (hF : List ℝ → List ℝ) (rF : List ℝ → ℕ → ℕ → List ℝ)
    (hl : Bool) (mt : ℕ → List ℝ → ℝ)
    (dest : String) (molds : List String) (cfg : Cfg)
    (h : (apply_envelopes load hF rF hl mt dest molds cfg).1.isOk = true) :
    ∃ y_dst sr envs E0,
      load dest none = .ok (y_dst, sr) ∧
      molds ≠ [] ∧
      (∀ p ∈ molds, (load p (some sr)).isOk = true) ∧
      combine_envelopes envs (pyLower (strOr cfg.combine_mode "max"))
        cfg.weights = .ok E0 ∧
      (apply_envelopes load hF rF hl mt dest molds cfg).2 =
        2 :: 5 :: (((List.range molds.length).map
          (fun k => 5 + 60 * (1 + k) / molds.length)) ++ [90, 100]) ∧
      ∃ B, (B = applyStage y_dst (floorClamp (cfg.floor_db.getD (-40)) E0) ∨
            ∃ g, B = scaleStage g
              (applyStage y_dst (floorClamp (cfg.floor_db.getD (-40)) E0))) ∧
        (apply_envelopes load hF rF hl mt dest molds cfg).1 = .ok (to_mono B) := by
  rw [apply_envelopes] at h ⊢
  cases hload : load dest none with
  | error e =>
    rw [hload] at h
    simp [Except.isOk, Except.toBool] at h
  | ok ysr =>
    obtain ⟨y_dst, sr⟩ := ysr
    rw [hload] at h
    dsimp only at h ⊢
    cases hpm : (processMolds load hF rF sr (to_mono y_dst).length
        (cfg.frame.getD 2048) (cfg.hop.getD 512) (pyLower (strOr cfg.mode "hilbert"))
        (cfg.attack_ms.getD 1) (cfg.release_ms.getD (1 / 2))
        molds 1 (max 1 molds.length)).1 with
    | error e =>
      rw [hpm] at h
      simp [Except.isOk, Except.toBool] at h
    | ok envs =>
      rw [hpm] at h
      dsimp only at h ⊢
      by_cases hemp : envs.isEmpty = true
      · rw [if_pos hemp] at h
        simp [Except.isOk, Except.toBool] at h
      · rw [if_neg hemp] at h ⊢
        cases hcomb : combine_envelopes envs (pyLower (strOr cfg.combine_mode "max"))
            cfg.weights with
        | error ce =>
          rw [hcomb] at h
          cases ce <;> simp [Except.isOk, Except.toBool] at h
        | ok E0 =>
          rw [hcomb] at h
          dsimp only at h ⊢
          obtain ⟨hlen, hloads, hprog⟩ :=
            processMolds_ok load hF rF sr (to_mono y_dst).length
              (cfg.frame.getD 2048) (cfg.hop.getD 512)
              (pyLower (strOr cfg.mode "hilbert"))
              (cfg.attack_ms.getD 1) (cfg.release_ms.getD (1 / 2))
              molds 1 (max 1 molds.length) envs hpm
          have hmne : molds ≠ [] := by
            intro hcon
            rw [hcon] at hlen
            simp [List.isEmpty_iff, List.length_eq_zero.1 hlen] at hemp
          have hM : max 1 molds.length = molds.length := by
            have : 1 ≤ molds.length := by
              cases molds with
              | nil => exact absurd rfl hmne
              | cons q qs => simp
            omega
          refine ⟨y_dst, sr, envs, E0, rfl, hmne, hloads, hcomb, ?_, ?_⟩
          · rw [hprog, hM]
          · cases hmatch : (cfg.match_lufs && hl) with
            | false =>
              refine ⟨applyStage y_dst (floorClamp (cfg.floor_db.getD (-40)) E0),
                Or.inl rfl, ?_⟩
              rw [if_neg (by simp)]
            | true =>
              refine ⟨scaleStage
                  (db_to_lin (mt sr (to_mono y_dst) -
                    mt sr (to_mono (applyStage y_dst
                      (floorClamp (cfg.floor_db.getD (-40)) E0)))))
                  (applyStage y_dst (floorClamp (cfg.floor_db.getD (-40)) E0)),
                Or.inr ⟨_, rfl⟩, ?_⟩
              rw [if_pos rfl]



lemma to_mono_length (y : List (List ℝ)) :
    (to_mono y).length = (y.headD []).length := by
  cases y <;> simp [to_mono]

lemma to_mono_getD (y : List (List ℝ)) (j : ℕ) (hj : j < (to_mono y).length) :
    (to_mono y).getD j 0 = (y.map (fun ch => ch.getD j 0)).sum / y.length := by
  cases y with
  | nil => simp [to_mono] at hj
  | cons c t =>
    rw [to_mono]
    have hj2 : j < c.length := by simpa [to_mono] using hj
    rw [getD_map_range _ _ _ hj2]

/-- C3: whenever a run succeeds, the buffer handed to the writer is
`to_mono` of the final processed buffer `B` (the envelope-multiplied
buffer, possibly rescaled by the loudness-match gain): a single mono
sequence whose sample at each index is the arithmetic mean across the
channels of `B`, regardless of the destination's channel count. -/
theorem c3_mono_output
    (load : String → Option ℕ → Except Err (List (List ℝ) × ℕ))
    (hF : List ℝ → List ℝ) (rF : List ℝ → ℕ → ℕ → List ℝ)
    (hl : Bool) (mt : ℕ → List ℝ → ℝ)
    (dest : String) (molds : List String) (cfg : Cfg)
    (h : (apply_envelopes load hF rF hl mt dest molds cfg).1.isOk = true) :
    ∃ y_dst E B,
      (B = applyStage y_dst E ∨ ∃ g, B = scaleStage g (applyStage y_dst E)) ∧
      (apply_envelopes load hF rF hl mt dest molds cfg).1 = .ok (to_mono B) ∧
      (to_mono B).length = (B.headD []).length ∧
      ∀ j, j < (to_mono B).length →
        (to_mono B).getD j 0 = (B.map (fun ch => ch.getD j 0)).sum / B.length := by
  obtain ⟨y_dst, sr, envs, E0, _, _, _, _, _, B, hB, hres⟩ :=
    apply_envelopes_ok load hF rF hl mt dest molds cfg h
  exact ⟨y_dst, floorClamp (cfg.floor_db.getD (-40)) E0, B, hB, hres,
    to_mono_length B, fun j hj => to_mono_getD B j hj⟩

/-- C9: across any successful pipeline run the reported progress sequence
is non-decreasing, every value is at most 100 (values are naturals, hence
at least 0), and the final reported value is 100; success forces at least
one mold. -/
theorem c9_progress
    (load : String → Option ℕ → Except Err (List (List ℝ) × ℕ))
    (hF : List ℝ → List ℝ) (rF : List ℝ → ℕ → ℕ → List ℝ)
    (hl : Bool) (mt : ℕ → List ℝ → ℝ)
    (dest : String) (molds : List String) (cfg : Cfg)
    (h : (apply_envelopes load hF rF hl mt dest molds cfg).1.isOk = true) :
    List.Pairwise (fun v1 v2 => v1 ≤ v2)
      (apply_envelopes load hF rF hl mt dest molds cfg).2 ∧
    (∀ v ∈ (apply_envelopes load hF rF hl mt dest molds cfg).2, v ≤ 100) ∧
    (apply_envelopes load hF rF hl mt dest molds cfg).2.getLast? = some 100 ∧
    1 ≤ molds.length := by
  obtain ⟨y_dst, sr, envs, E0, _, hmne, _, _, hprog, _⟩ :=
    apply_envelopes_ok load hF rF hl mt dest molds cfg h
  have hn : 1 ≤ molds.length := List.length_pos.2 hmne
  have hfle : ∀ k, k < molds.length → 5 + 60 * (1 + k) / molds.length ≤ 65 := by
    intro k hk
    have h1 : 60 * (1 + k) ≤ 60 * molds.length := Nat.mul_le_mul_left 60 (by omega)
    have h2 : 60 * (1 + k) / molds.length ≤ 60 * molds.length / molds.length :=
      Nat.div_le_div_right h1
    have h3 : 60 * molds.length / molds.length = 60 :=
      Nat.mul_div_cancel 60 (by omega)
    omega
  have hfmono : ∀ k1 k2 : ℕ, k1 < k2 →
      5 + 60 * (1 + k1) / molds.length ≤ 5 + 60 * (1 + k2) / molds.length := by
    intro k1 k2 hk
    have h2 : 60 * (1 + k1) / molds.length ≤ 60 * (1 + k2) / molds.length :=
      Nat.div_le_div_right (Nat.mul_le_mul_left 60 (by omega : 1 + k1 ≤ 1 + k2))
    omega
  rw [hprog]
  refine ⟨?_, ?_, ?_, hn⟩
  · rw [List.pairwise_cons]
    refine ⟨?_, ?_⟩
    · intro y hy
      rcases List.mem_cons.1 hy with rfl | hy2
      · omega
      rcases List.mem_append.1 hy2 with hy3 | hy4
      · obtain ⟨k, hk, rfl⟩ := List.mem_map.1 hy3
        exact le_trans (by norm_num) (Nat.le_add_right 5 _)
      · simp only [List.mem_cons, List.not_mem_nil, or_false] at hy4
        rcases hy4 with rfl | rfl <;> omega
    rw [List.pairwise_cons]
    refine ⟨?_, ?_⟩
    · intro y hy
      rcases List.mem_append.1 hy with hy3 | hy4
      · obtain ⟨k, hk, rfl⟩ := List.mem_map.1 hy3
        exact Nat.le_add_right 5 _
      · simp only [List.mem_cons, List.not_mem_nil, or_false] at hy4
        rcases hy4 with rfl | rfl <;> omega
    rw [List.pairwise_append]
    refine ⟨?_, by simp, ?_⟩
    · exact List.Pairwise.map _ (fun a b hab => hfmono a b hab)
        (List.pairwise_lt_range molds.length)
    · intro x hx b hb
      obtain ⟨k, hk, rfl⟩ := List.mem_map.1 hx
      have hk2 : k < molds.length := List.mem_range.1 hk
      have := hfle k hk2
      simp only [List.mem_cons, List.not_mem_nil, or_false] at hb
      rcases hb with rfl | rfl <;> omega
  · intro v hv
    rcases List.mem_cons.1 hv with rfl | hv2
    · omega
    rcases List.mem_cons.1 hv2 with rfl | hv3
    · omega
    rcases List.mem_append.1 hv3 with hv4 | hv5
    · obtain ⟨k, hk, rfl⟩ := List.mem_map.1 hv4
      have := hfle k (List.mem_range.1 hk)
      omega
    · simp only [List.mem_cons, List.not_mem_nil, or_false] at hv5
      rcases hv5 with rfl | rfl <;> omega
  · rw [show (2 : ℕ) :: 5 ::
        ((List.range molds.length).map
          (fun k => 5 + 60 * (1 + k) / molds.length) ++ [90, 100]) =
        (2 :: 5 :: ((List.range molds.length).map
          (fun k => 5 + 60 * (1 + k) / molds.length) ++ [90])) ++ [100] by simp,
      List.getLast?_concat]

/-- C1 (amended): a mold decode failure is *not* skipped — the engine has
no per-mold exception handling, so any mold load error propagates and is
immediately fatal (contrapositive: a successful run implies every mold
decoded).  The `NoValidMolds` failure arises exactly when the mold list is
empty and the destination decodes. -/
theorem c1_mold_decode_fatal
    (load : String → Option ℕ → Except Err (List (List ℝ) × ℕ))
    (hF : List ℝ → List ℝ) (rF : List ℝ → ℕ → ℕ → List ℝ)
    (hl : Bool) (mt : ℕ → List ℝ → ℝ)
    (dest : String) (molds : List String) (cfg : Cfg) :
    ((apply_envelopes load hF rF hl mt dest molds cfg).1.isOk = true →
      molds ≠ [] ∧ ∃ y_dst sr, load dest none = .ok (y_dst, sr) ∧
        ∀ p ∈ molds, (load p (some sr)).isOk = true) ∧
    (∀ y_dst sr, load dest none = .ok (y_dst, sr) → molds = [] →
      (apply_envelopes load hF rF hl mt dest molds cfg).1 =
        .error .noValidMolds) := by
  constructor
  · intro h
    obtain ⟨y_dst, sr, envs, E0, hload, hmne, hloads, _⟩ :=
      apply_envelopes_ok load hF rF hl mt dest molds cfg h
    exact ⟨hmne, y_dst, sr, hload, hloads⟩
  · intro y_dst sr hload hnil
    subst hnil
    rw [apply_envelopes, hload]
    dsimp only
    simp [processMolds]

/-- `combine_envelopes` in `max` mode on a single envelope returns it. -/
lemma combine_single_max (e : List ℝ) :
    combine_envelopes [e] "max" none = .ok e := by
  rw [combine_envelopes, if_neg (by simp [sameLen])]
  rw [if_pos (by decide)]
  congr 1
  simp only [List.headD_cons, colMax_single]
  exact map_getD_range_self e

/-- The concrete example run (destination `"d"`, one mold `"m"`) succeeds:
the decode oracle returns one-sample buffers and the whole engine pipeline
runs to completion. -/
lemma exRun_ok :
    (apply_envelopes loadEx hilbertEx rmsEx false meterEx "d" ["m"] cfgEx).1.isOk
      = true := by
  rw [apply_envelopes]
  rw [show loadEx "d" none = .ok ([[0]], 1000) from rfl]
  simp only [cfgEx, strOr, Option.getD]
  rw [processMolds]
  rw [show loadEx "m" (some 1000) = .ok ([[1]], 1000) from rfl]
  dsimp only
  rw [show pyLower (if ("hilbert" : String) = "" then "hilbert" else "hilbert") = "hilbert"
    from rfl]
  rw [if_neg (show ¬ (("hilbert" : String) = "rms") from by decide)]
  have hne : hilbertEx (to_mono [[(1 : ℝ)]]) ≠ [] := by
    simp [hilbertEx, to_mono]
  have hnn : ∀ x ∈ hilbertEx (to_mono [[(1 : ℝ)]]), 0 ≤ x := by
    simp [hilbertEx, to_mono]
  obtain ⟨e1, e2, out, he1, he2, hout, hcond, hlen, hnnout, _, _⟩ :=
    conditionEnvelope_spec (hilbertEx (to_mono [[(1 : ℝ)]])) 1000 1 1
      ((to_mono [[(0 : ℝ)]]).length) hne hnn
  rw [hcond]
  dsimp only
  rw [processMolds]
  dsimp only
  rw [show pyLower (if ("max" : String) = "" then "max" else "max") = "max" from rfl]
  rw [show Except.map (fun ls => out :: ls) (Except.ok ([] : List (List ℝ))) =
    Except.ok [out] from rfl]
  dsimp only
  rw [if_neg (by simp [List.isEmpty_iff])]
  rw [combine_single_max out]
  rfl

/-- C1 counterexample: a run with molds `["bad", "m"]` where `"bad"` fails
to decode but `"m"` decodes fine.  The claim predicts the bad mold is
skipped and the run continues with `"m"`; the code instead propagates the
decode error and the whole run fails. -/
theorem c1_counterexample :
    (apply_envelopes loadEx hilbertEx rmsEx false meterEx "d" ["bad", "m"] cfgEx).1 =
      .error (.decode "bad") ∧
    (loadEx "m" (some 1000)).isOk = true := by
  constructor
  · rw [apply_envelopes]
    rw [show loadEx "d" none = .ok ([[0]], 1000) from rfl]
    dsimp only
    rw [processMolds]
    rw [show loadEx "bad" (some 1000) = .error (.decode "bad") from rfl]
  · rfl

/-- C1 witness: `c1_mold_decode_fatal` at a run whose destination decodes
but whose mold list is empty, which yields the `NoValidMolds` failure. -/
theorem c1_witness :
    (apply_envelopes loadEx hilbertEx rmsEx false meterEx "d" [] cfgEx).1 =
      .error .noValidMolds :=
  (c1_mold_decode_fatal loadEx hilbertEx rmsEx false meterEx "d" [] cfgEx).2
    [[0]] 1000 rfl rfl

/-- C3 witness: `c3_mono_output` at the concrete successful example run. -/
theorem c3_witness :
    ∃ y_dst E B,
      (B = applyStage y_dst E ∨ ∃ g, B = scaleStage g (applyStage y_dst E)) ∧
      (apply_envelopes loadEx hilbertEx rmsEx false meterEx "d" ["m"] cfgEx).1 =
        .ok (to_mono B) ∧
      (to_mono B).length = (B.headD []).length ∧
      ∀ j, j < (to_mono B).length →
        (to_mono B).getD j 0 = (B.map (fun ch => ch.getD j 0)).sum / B.length :=
  c3_mono_output loadEx hilbertEx rmsEx false meterEx "d" ["m"] cfgEx exRun_ok

/-- C9 witness: `c9_progress` at the concrete successful example run. -/
theorem c9_witness :
    List.Pairwise (fun v1 v2 => v1 ≤ v2)
      (apply_envelopes loadEx hilbertEx rmsEx false meterEx "d" ["m"] cfgEx).2 ∧
    (∀ v ∈ (apply_envelopes loadEx hilbertEx rmsEx false meterEx "d" ["m"] cfgEx).2,
      v ≤ 100) ∧
    (apply_envelopes loadEx hilbertEx rmsEx false meterEx "d" ["m"] cfgEx).2.getLast?
      = some 100 ∧
    1 ≤ (["m"] : List String).length :=
  c9_progress loadEx hilbertEx rmsEx false meterEx "d" ["m"] cfgEx exRun_ok

/-! ### Claims C5 and C6: conditioning and smoothing -/

/-- C5: for a nonempty nonnegative raw envelope and any target length
`N ≥ 1`, conditioning (peak-normalise, smooth, loop-to-length) succeeds and
returns exactly `N` samples, all nonnegative; the result is the first `N`
samples of the smoothed envelope when it is long enough, and otherwise the
smoothed envelope tiled `ceil(N / len)` times and truncated to `N`. -/
theorem c5_condition (env0 : List ℝ) (sr : ℕ) (a r : ℚ) (N : ℕ)
    (h0 : env0 ≠ []) (hnn : ∀ x ∈ env0, 0 ≤ x) (hN : 1 ≤ N) :
    ∃ e1 e2 out, normalizeEnv env0 = some e1 ∧
      smooth_envelope e1 sr a r = some e2 ∧
      loop_to_length e2 N = some out ∧
      conditionEnvelope env0 sr a r N = some out ∧
      out.length = N ∧ (∀ x ∈ out, 0 ≤ x) ∧
      (N ≤ e2.length → out = e2.take N) ∧
      (e2.length < N →
        out = (npTile e2 ((N + e2.length - 1) / e2.length)).take N) :=
  conditionEnvelope_spec env0 sr a r N h0 hnn

/-- C5 witness: `c5_condition` at the raw envelope `[1]`, `sr = 2`, 1 ms
attack and release, and target length 3 (longer than the envelope). -/
theorem c5_witness :
    ∃ e1 e2 out, normalizeEnv [(1 : ℝ)] = some e1 ∧
      smooth_envelope e1 2 1 1 = some e2 ∧
      loop_to_length e2 3 = some out ∧
      conditionEnvelope [(1 : ℝ)] 2 1 1 3 = some out ∧
      out.length = 3 ∧ (∀ x ∈ out, 0 ≤ x) ∧
      (3 ≤ e2.length → out = e2.take 3) ∧
      (e2.length < 3 →
        out = (npTile e2 ((3 + e2.length - 1) / e2.length)).take 3) :=
  c5_condition [(1 : ℝ)] 2 1 1 3 (by simp) (by simp) (by norm_num)

/-- C6 counterexample: at `sr = 1000` and `ms = 1.6`, the code's constant
`max(1, int(sr*ms/1000)) = max(1, int(1.6)) = 1` (truncation), while the
claim's formula `max(1, round(sr*ms/1000)) = max(1, round(1.6)) = 2`. -/
theorem c6_counterexample :
    tauSamples 1000 (8 / 5) = 1 ∧ tauSpecRound 1000 (8 / 5) = 2 ∧
    tauSamples 1000 (8 / 5) ≠ tauSpecRound 1000 (8 / 5) := by
  have h1 : tauSamples 1000 (8 / 5) = 1 := by
    norm_num [tauSamples, ratTrunc]
  have h2 : tauSpecRound 1000 (8 / 5) = 2 := by
    norm_num [tauSpecRound, round_eq]
    decide
  exact ⟨h1, h2, by rw [h1, h2]; norm_num⟩

/-- C6 witness: `c6_smoothing` at the concrete envelope `[1, 2]`. -/
theorem c6_witness :
    ∃ out, smooth_envelope [(1 : ℝ), 2] 1000 1 1 = some out ∧ out.length = 2 := by
  obtain ⟨-, out, hsome, hl, -⟩ := c6_smoothing [(1 : ℝ), 2] 1000 1 1 (by simp)
  exact ⟨out, hsome, by simpa using hl⟩

end CopyEnvelope
